import Mathlib

/-!
Shallow embedding of the text-normalization / chunking pipeline and the
multi-segment playback state machine of the opra repository
(src/shared/src/PDFTextExtractor.cpp, src/shared/src/TextToSpeech.cpp,
headers in src/shared/include).

C++ std::string values are modelled as Lean String values (a list of
characters); all failing inputs used below are plain ASCII, where the two
representations agree byte for byte.  C++ int values are modelled as Int,
size_t comparisons with the explicit mod-2^64 conversion where the source
mixes int and size_t.  C++ float fields are modelled as Rat values: the
controller only stores and copies them, it never computes with them.
A C++ function that can throw (std::regex_error escaping from
std::regex construction) is modelled with an Option result, none being the
exception.
-/

namespace Opra

/-- Whitespace for the default C locale, as used both by operator>> on an
istringstream and by the byte-mode ECMAScript class backslash-s:
space, tab, newline, vertical tab, form feed, carriage return. -/
def isCppWhitespace (c : Char) : Bool :=
  c == ' ' || c == '\t' || c == '\n' || c == '\x0b' || c == '\x0c' || c == '\x0d'

/-- Characters removed by the control-character regex used by both
cleanTextForTTS functions: the class x00-x08, x0B, x0C, x0E-x1F, x7F
(newline and tab are kept; so is carriage return x0D, which the class skips). -/
def isRemovedControl (c : Char) : Bool :=
  decide (c.toNat ≤ 0x08 ∨ c.toNat = 0x0B ∨ c.toNat = 0x0C ∨
    (0x0E ≤ c.toNat ∧ c.toNat ≤ 0x1F) ∨ c.toNat = 0x7F)

/-- Model of regex_replace with the control-character class and an empty
replacement: every matching character is deleted. -/
def removeControlChars (l : List Char) : List Char :=
  l.filter (fun c => !(isRemovedControl c))

/-- Fuel-driven model of regex_replace with the pattern backslash-s-brace-2-comma-brace
(two or more whitespace characters) replaced by a single space: each maximal
run of at least two whitespace characters becomes one space; a lone
whitespace character is left unchanged.  The fuel only makes the recursion
structural; it is always called with fuel = length, which suffices because
every step consumes at least one character. -/
def collapseFuel : Nat → List Char → List Char
  | 0, l => l
  | _ + 1, [] => []
  | n + 1, c :: cs =>
    if isCppWhitespace c then
      if (cs.takeWhile isCppWhitespace).length + 1 ≥ 2 then
        ' ' :: collapseFuel n (cs.dropWhile isCppWhitespace)
      else
        c :: collapseFuel n cs
    else
      c :: collapseFuel n cs

/-- Collapse runs of two or more whitespace characters into one space. -/
def collapseWhitespaceRuns (l : List Char) : List Char :=
  collapseFuel l.length l

/-- Model of the trim helper shared by both classes: find_first_not_of and
find_last_not_of with the single character space, so only spaces are trimmed
(not tabs or newlines); an all-space string becomes empty. -/
def trimSpaces (l : List Char) : List Char :=
  ((l.dropWhile (· == ' ')).reverse.dropWhile (· == ' ')).reverse

namespace PDFTextExtractor

/-- PageRange from PDFTextExtractor.h: 1-based inclusive page bounds. -/
structure PageRange where
  startPage : Int
  endPage : Int
  totalPages : Int
deriving DecidableEq

/-- TextChunk from PDFTextExtractor.h. -/
structure TextChunk where
  text : String
  wordCount : Int
deriving DecidableEq

/-- ExtractionResult from PDFTextExtractor.h. -/
structure ExtractionResult where
  success : Bool
  errorMessage : String
  fullText : String
  chunks : List TextChunk
  pageRange : PageRange
  isChunked : Bool
deriving DecidableEq

/-- Value of a default-constructed ExtractionResult.  In C++ the string and
vector members are empty and the int/bool members are left indeterminate by
default-initialization; they are modelled as 0/false here.  The
counterexamples below do not depend on this choice: they use a field the
source expressly assigns before a failure return. -/
def ExtractionResult.defaultValue : ExtractionResult :=
  ⟨false, "", "", [], ⟨0, 0, 0⟩, false⟩

/-- Accumulator pass of splitIntoWords: operator>> repeatedly skips
whitespace and reads a maximal non-whitespace run. -/
def splitWordsAux : List Char → List Char → List (List Char)
  | [], acc => if acc = [] then [] else [acc.reverse]
  | c :: cs, acc =>
    if isCppWhitespace c then
      if acc = [] then splitWordsAux cs []
      else acc.reverse :: splitWordsAux cs []
    else
      splitWordsAux cs (c :: acc)

/-- List-level core of splitIntoWords. -/
def splitWordsL (l : List Char) : List (List Char) :=
  splitWordsAux l []

/-- List-level core of joinWords: first word bare, a single space before
each later word (the loop writes a space exactly when i is positive). -/
def joinWordsL : List (List Char) → List Char
  | [] => []
  | [w] => w
  | w :: ws => w ++ ' ' :: joinWordsL ws

/-- splitIntoWords from PDFTextExtractor.cpp. -/
def splitIntoWords (text : String) : List String :=
  (splitWordsL text.toList).map String.mk

/-- joinWords from PDFTextExtractor.cpp. -/
def joinWords (ws : List String) : String :=
  String.mk (joinWordsL (ws.map String.toList))

/-- Loop of chunkText: push the word, bump the count, close the chunk when
the count reaches chunkSize, and emit any remainder as a final chunk. -/
def chunkGo (chunkSize : Int) : List (List Char) → List (List Char) → Int →
    List (List Char × Int)
  | [], cur, cnt => if cur = [] then [] else [(joinWordsL cur, cnt)]
  | w :: ws, cur, cnt =>
    if cnt + 1 ≥ chunkSize then
      (joinWordsL (cur ++ [w]), cnt + 1) :: chunkGo chunkSize ws [] 0
    else
      chunkGo chunkSize ws (cur ++ [w]) (cnt + 1)

/-- chunkText from PDFTextExtractor.cpp. -/
def chunkText (text : String) (chunkSize : Int) : List TextChunk :=
  (chunkGo chunkSize (splitWordsL text.toList) [] 0).map
    (fun p => ⟨String.mk p.1, p.2⟩)

/-- Joining a list of strings with single spaces (the joining operation the
reconstruction property speaks about, written out explicitly). -/
def joinTextsWithSpaces : List String → String
  | [] => ""
  | [t] => t
  | t :: ts => t ++ " " ++ joinTextsWithSpaces ts

/-- Joining the texts of a chunk sequence with single spaces. -/
def joinChunkTexts (cs : List TextChunk) : String :=
  joinTextsWithSpaces (cs.map (·.text))

/-- Token of the fragment of the C++ ECMAScript regex grammar that the
substitution-table keys fall into: literal characters, the classes
backslash-d / backslash-s / backslash-w, and the word-boundary assertion
backslash-b. -/
inductive RegexTok where
  | lit (c : Char)
  | digitClass
  | spaceClass
  | wordClass
  | wordBoundary
deriving DecidableEq

/-- ECMAScript word character for backslash-w and backslash-b:
ASCII letters, digits and underscore. -/
def isWordChar (c : Char) : Bool :=
  c.isAlpha || c.isDigit || c == '_'

/-- Compile a substitution-table key to its actual meaning under the C++
ECMAScript grammar ([re.grammar]): inside a pattern a backslash starts an
escape, so the keys never match their own backslash.  ControlEscape f n r t v
yield the control characters, backslash-d / s / w the classes, backslash-b a
word boundary, backslash-c followed by a letter the control character
letter mod 32, and any other escaped character stands for itself
(IdentityEscape is SourceCharacter but not c).  The only non-escape
characters occurring in the keys that are valid here are plain literals;
keys that fail to compile at all are rejected beforehand by
regexConstructionFails and never reach this function. -/
def parseToks : List Char → List RegexTok
  | [] => []
  | '\\' :: c :: cs =>
    if c = 'f' then .lit '\x0c' :: parseToks cs
    else if c = 'n' then .lit '\n' :: parseToks cs
    else if c = 'r' then .lit '\x0d' :: parseToks cs
    else if c = 't' then .lit '\t' :: parseToks cs
    else if c = 'v' then .lit '\x0b' :: parseToks cs
    else if c = 'd' then .digitClass :: parseToks cs
    else if c = 's' then .spaceClass :: parseToks cs
    else if c = 'w' then .wordClass :: parseToks cs
    else if c = 'b' then .wordBoundary :: parseToks cs
    else if c = 'c' then
      match cs with
      | d :: cs' => .lit (Char.ofNat (d.toNat % 32)) :: parseToks cs'
      | [] => [.lit c]
    else .lit c :: parseToks cs
  | c :: cs => .lit c :: parseToks cs

/-- Whether a single consuming token matches a character. -/
def tokMatches : RegexTok → Char → Bool
  | .lit a, c => a == c
  | .digitClass, c => c.isDigit
  | .spaceClass, c => isCppWhitespace c
  | .wordClass, c => isWordChar c
  | .wordBoundary, _ => false

/-- Word boundary between the previous character (none at the start of the
input) and the next one (none at the end). -/
def atBoundary (prev next : Option Char) : Bool :=
  (match prev with | some c => isWordChar c | none => false) !=
  (match next with | some c => isWordChar c | none => false)

/-- Try to match a token sequence at the head of the input; on success
return the number of characters consumed and the last consumed character
(used as boundary context for the continuation). -/
def matchToks (prev : Option Char) : List RegexTok → List Char → Option (Nat × Option Char)
  | [], _ => some (0, prev)
  | .wordBoundary :: ts, l =>
    if atBoundary prev l.head? then matchToks prev ts l else none
  | t :: ts, c :: cs =>
    if tokMatches t c then (matchToks (some c) ts cs).map (fun p => (p.1 + 1, p.2)) else none
  | _ :: _, [] => none

/-- Fuel-driven left-to-right scan of regex_replace: at each position try
the compiled pattern; on a match emit the replacement and continue after the
matched characters, otherwise emit the character.  All table patterns
consume at least one character when they match, so a zero-length match is
treated as no match and fuel = length suffices. -/
def scanFuel (toks : List RegexTok) (rep : List Char) :
    Nat → Option Char → List Char → List Char
  | 0, _, l => l
  | _ + 1, _, [] => []
  | n + 1, prev, c :: cs =>
    match matchToks prev toks (c :: cs) with
    | some (k + 1, last) => rep ++ scanFuel toks rep n last (cs.drop k)
    | _ => c :: scanFuel toks rep n (some c) cs

/-- Model of cleaned = regex_replace(cleaned, regex(pat), rep) for a key
that compiles. -/
def ecmaReplace (pat rep : String) (l : List Char) : List Char :=
  scanFuel (parseToks pat.toList) rep.toList l.length none l

/-- Whether std::regex construction of a table key throws std::regex_error.
Under the grammar of C++ [re.grammar] (ECMA-262 with IdentityEscape
modified), an opening brace after an atom must begin a quantifier with
decimal digits, so the four keys that end in a lone opening brace fail to
compile and their construction throws (verified against libstdc++, which
reports error_badbrace for them and accepts every other key; the lone
closing-brace key is accepted as a literal).  Within the table this is
exactly the keys whose last character is an opening brace. -/
def regexConstructionFails (pat : String) : Bool :=
  match pat.toList.getLast? with
  | some c => c == '\x7b'
  | none => false

/-- The latexReplacements table of cleanTextForTTS.  The source stores these
43 pairs in a std::map keyed by the pattern string, so the range-for loop
visits them in lexicographic byte order of the keys, which is the order
listed here (all keys starting with a backslash 0x5C first, then the caret
0x5E key, the underscore 0x5F key, and the closing brace 0x7D key); the
textual order of the source's initializer list is irrelevant. -/
def latexReplacements : List (String × String) := [
  ("\\alpha", " alpha "),
  ("\\approx", " approximately equal to "),
  ("\\beta", " beta "),
  ("\\cap", " intersection "),
  ("\\cup", " union "),
  ("\\delta", " delta "),
  ("\\div", " divided by "),
  ("\\emptyset", " empty set "),
  ("\\epsilon", " epsilon "),
  ("\\equiv", " equivalent to "),
  ("\\exists", " there exists "),
  ("\\forall", " for all "),
  ("\\frac\x7b", " fraction "),
  ("\\gamma", " gamma "),
  ("\\geq", " greater than or equal to "),
  ("\\in", " in "),
  ("\\infty", " infinity "),
  ("\\int", " integral "),
  ("\\lambda", " lambda "),
  ("\\leftarrow", " implied by "),
  ("\\leftrightarrow", " if and only if "),
  ("\\leq", " less than or equal to "),
  ("\\lim", " limit "),
  ("\\mu", " mu "),
  ("\\neq", " not equal to "),
  ("\\notin", " not in "),
  ("\\omega", " omega "),
  ("\\phi", " phi "),
  ("\\pi", " pi "),
  ("\\pm", " plus or minus "),
  ("\\propto", " proportional to "),
  ("\\rightarrow", " implies "),
  ("\\sigma", " sigma "),
  ("\\sqrt\x7b", " square root of "),
  ("\\subset", " subset of "),
  ("\\sum", " sum "),
  ("\\supset", " superset of "),
  ("\\tau", " tau "),
  ("\\theta", " theta "),
  ("\\times", " times "),
  ("^\x7b", " to the power of "),
  ("_\x7b", " sub "),
  ("\x7d", " ")]

/-- The range-for loop over the substitution table: each iteration first
constructs std::regex(pat) - which throws for an invalid key, aborting the
whole function - and then replaces.  none models the escaping exception. -/
def applyLatexReplacements : List (String × String) → List Char → Option (List Char)
  | [], l => some l
  | (pat, rep) :: rest, l =>
    if regexConstructionFails pat then none
    else applyLatexReplacements rest (ecmaReplace pat rep l)

/-- Characters removed by the zero-width class.  The source writes the class
with backslash-u escapes over a byte string; this model reads them as the
intended code points.  (A byte-mode engine truncates the values instead, but
every theorem below factors through the unconditional exception raised later
in the substitution loop, so this choice is never load-bearing.) -/
def isZeroWidth (c : Char) : Bool :=
  decide (c.toNat = 0x200B ∨ c.toNat = 0x200C ∨ c.toNat = 0x200D ∨
    c.toNat = 0x2060 ∨ c.toNat = 0xFEFF)

/-- Step removing zero-width characters. -/
def removeZeroWidthChars (l : List Char) : List Char :=
  l.filter (fun c => !(isZeroWidth c))

/-- Unicode space characters replaced by a plain space (same code-point
reading as removeZeroWidthChars, and equally not load-bearing). -/
def isUnicodeSpace (c : Char) : Bool :=
  decide (c.toNat = 0x00A0 ∨ (0x2000 ≤ c.toNat ∧ c.toNat ≤ 0x200F) ∨
    (0x2028 ≤ c.toNat ∧ c.toNat ≤ 0x202F) ∨
    (0x205F ≤ c.toNat ∧ c.toNat ≤ 0x206F) ∨ c.toNat = 0x3000)

/-- Step replacing Unicode space variants with an ordinary space. -/
def replaceUnicodeSpaces (l : List Char) : List Char :=
  l.map (fun c => if isUnicodeSpace c then ' ' else c)

/-- Model of the math-delimiter regex: the ordered alternation of the
literals backslash-(, backslash-), backslash-[, backslash-], two dollars,
one dollar, each replaced by a single space, scanning left to right. -/
def stripMathDelimiters : List Char → List Char
  | '\\' :: '(' :: cs => ' ' :: stripMathDelimiters cs
  | '\\' :: ')' :: cs => ' ' :: stripMathDelimiters cs
  | '\\' :: '[' :: cs => ' ' :: stripMathDelimiters cs
  | '\\' :: ']' :: cs => ' ' :: stripMathDelimiters cs
  | '$' :: '$' :: cs => ' ' :: stripMathDelimiters cs
  | '$' :: cs => ' ' :: stripMathDelimiters cs
  | c :: cs => c :: stripMathDelimiters cs
  | [] => []

/-- cleanTextForTTS from PDFTextExtractor.cpp: control-character removal,
zero-width removal, Unicode-space replacement, math-delimiter stripping,
then the substitution loop (whose thirteenth visited key fails to compile,
so the loop throws), then whitespace collapsing and trimming. -/
def cleanTextForTTS (text : String) : Option String :=
  let s1 := removeControlChars text.toList
  let s2 := removeZeroWidthChars s1
  let s3 := replaceUnicodeSpaces s2
  let s4 := stripMathDelimiters s3
  (applyLatexReplacements latexReplacements s4).map
    (fun l => String.mk (trimSpaces (collapseWhitespaceRuns l)))

/-- The platform document backend behind getPageCount / extractTextFromPDF,
plus the ifstream existence probe of extractText, treated as an external
collaborator. -/
structure PdfBackend where
  fileOk : Bool
  pageCount : Int
  extractRange : Int → Int → String

/-- extractTextFromPages from PDFTextExtractor.cpp.  none models the
std::regex_error escaping from cleanTextForTTS on the success path. -/
def extractTextFromPages (b : PdfBackend) (startPage endPage : Int) :
    Option ExtractionResult :=
  let result := ExtractionResult.defaultValue
  if b.pageCount ≤ 0 then
    some { result with errorMessage := "Could not determine page count" }
  else
    let startPage := max 1 startPage
    let endPage := min b.pageCount endPage
    if startPage > endPage then
      some { result with errorMessage := "Invalid page range" }
    else
      let result := { result with
        pageRange := ⟨startPage, endPage, b.pageCount⟩ }
      let extractedText := b.extractRange startPage endPage
      if extractedText = "" then
        some { result with
          errorMessage := "No text could be extracted from the specified pages" }
      else
        match cleanTextForTTS extractedText with
        | none => none
        | some fullText =>
          let wordCount := (splitIntoWords fullText).length
          if (wordCount : Int) > 10000 then
            some { result with
              success := true
              fullText := fullText
              isChunked := true
              chunks := chunkText fullText 10000 }
          else
            some { result with
              success := true
              fullText := fullText
              isChunked := false
              chunks := [⟨fullText, (wordCount : Int)⟩] }

/-- extractText from PDFTextExtractor.cpp: existence probe, page count
check, then delegation to extractTextFromPages over the full span (the
pageRange fields assigned before the delegating call are discarded, since
the callee builds a fresh result). -/
def extractText (b : PdfBackend) : Option ExtractionResult :=
  if !b.fileOk then
    some { ExtractionResult.defaultValue with
      errorMessage := "File does not exist or cannot be opened" }
  else if b.pageCount ≤ 0 then
    some { ExtractionResult.defaultValue with
      errorMessage := "Could not determine page count or PDF is invalid" }
  else
    extractTextFromPages b 1 b.pageCount

end PDFTextExtractor

namespace TextToSpeech

/-- SpeechState from TextToSpeech.h. -/
inductive SpeechState where
  | Stopped
  | Speaking
  | Paused
deriving DecidableEq

/-- SpeechSettings from TextToSpeech.h; the float fields are modelled as
rationals (they are only stored and copied, never computed with). -/
structure SpeechSettings where
  rate : ℚ
  pitch : ℚ
  volume : ℚ
  voiceId : String
deriving DecidableEq

/-- In-class member initializers of SpeechSettings: rate 0.5, pitch 1.0,
volume 1.0, empty voiceId. -/
def SpeechSettings.defaultValue : SpeechSettings :=
  ⟨1/2, 1, 1, ""⟩

/-- The mutable fields of TextToSpeech::Impl that the controller logic
reads and writes. -/
structure ImplState where
  state : SpeechState
  settings : SpeechSettings
  chunks : List String
  currentChunk : Int
  isChunked : Bool
  progress : ℚ
  currentWordIndex : Int
  totalWords : Int
deriving DecidableEq

/-- Field initializers of TextToSpeech::Impl. -/
def ImplState.initial : ImplState :=
  ⟨.Stopped, .defaultValue, [], 0, false, 0, 0, 0⟩

/-- Notifications issued to the registered callbacks (the source guards
each call by a null check on the stored std::function; an emitted event
here models the call made when the callback is registered). -/
inductive CallbackEvent where
  | started
  | finished
  | paused
  | resumed
  | progressed (p : ℚ) (currentWord totalWords : Int)
deriving DecidableEq

/-- Conversion of a C++ int to size_t, as happens in the comparisons that
mix the int indices with vector sizes: reduction mod 2^64, so a negative
index becomes a huge unsigned value. -/
def toSizeT (i : Int) : Nat :=
  (i % (2 ^ 64 : Int)).toNat

/-- size_t subtraction of one from a vector size, which wraps to 2^64 - 1
when the vector is empty. -/
def sizeTPred (n : Nat) : Nat :=
  (n + 2 ^ 64 - 1) % 2 ^ 64

/-- cleanTextForTTS from TextToSpeech.cpp (the simpler of the two
functions with that name): control-character removal, whitespace-run
collapsing, space trimming.  All its regexes compile, so it is total. -/
def cleanTextForTTS (text : String) : String :=
  String.mk (trimSpaces (collapseWhitespaceRuns (removeControlChars text.toList)))

/-- speak from TextToSpeech.cpp: reject empty input, clean, reject text
that cleans to empty, then delegate to the platform backend, here the
acceptance function.  It mutates no controller state. -/
def speak (accept : String → Bool) (text : String) : Bool :=
  if text = "" then false
  else if cleanTextForTTS text = "" then false
  else accept (cleanTextForTTS text)

/-- speakCurrentChunk from TextToSpeech.cpp: speak chunks[currentChunk]
when a chunked session is active and the index is within the vector. -/
def speakCurrentChunk (accept : String → Bool) (st : ImplState) : Bool :=
  if st.isChunked ∧ toSizeT st.currentChunk < st.chunks.length then
    speak accept (st.chunks.getD (toSizeT st.currentChunk) "")
  else false

/-- speakChunked from TextToSpeech.cpp: reject an empty sequence or an
out-of-bounds start index, otherwise store the chunk sequence, the start
index and the chunked flag into the session state and then attempt the
first chunk; the stores happen before the attempt, whatever its outcome. -/
def speakChunked (accept : String → Bool) (chunks : List String)
    (startChunk : Int) (st : ImplState) : Bool × ImplState :=
  if chunks = [] ∨ chunks.length ≤ toSizeT startChunk then
    (false, st)
  else
    let st := { st with chunks := chunks, currentChunk := startChunk, isChunked := true }
    (speakCurrentChunk accept st, st)

/-- pause from TextToSpeech.cpp: only from Speaking; delegates to the
backend (no core-visible effect) and notifies the paused callback. -/
def pause (st : ImplState) : ImplState × List CallbackEvent :=
  if st.state = .Speaking then
    ({ st with state := .Paused }, [.paused])
  else (st, [])

/-- resume from TextToSpeech.cpp: only from Paused. -/
def resume (st : ImplState) : ImplState × List CallbackEvent :=
  if st.state = .Paused then
    ({ st with state := .Speaking }, [.resumed])
  else (st, [])

/-- stop from TextToSpeech.cpp: from any non-Stopped state, set Stopped and
clear the chunked-session fields (and only those); no callback fires. -/
def stop (st : ImplState) : ImplState :=
  if st.state ≠ .Stopped then
    { st with state := .Stopped, isChunked := false, chunks := [], currentChunk := 0 }
  else st

/-- onSpeechStarted from TextToSpeech.cpp. -/
def onSpeechStarted (st : ImplState) : ImplState × List CallbackEvent :=
  ({ st with state := .Speaking }, [.started])

/-- onSpeechFinished from TextToSpeech.cpp: with a chunked session whose
index is not the last, advance the index and re-issue the current chunk
(the boolean result of that attempt is discarded) with no callback;
otherwise set Stopped, clear the chunked-session fields and notify the
finished callback. -/
def onSpeechFinished (accept : String → Bool) (st : ImplState) :
    ImplState × List CallbackEvent :=
  if st.isChunked ∧ toSizeT st.currentChunk < sizeTPred st.chunks.length then
    let st := { st with currentChunk := st.currentChunk + 1 }
    let _ := speakCurrentChunk accept st
    (st, [])
  else
    ({ st with state := .Stopped, isChunked := false, chunks := [], currentChunk := 0 },
      [.finished])

/-- onProgress from TextToSpeech.cpp. -/
def onProgress (p : ℚ) (currentWord totalWords : Int) (st : ImplState) :
    ImplState × List CallbackEvent :=
  ({ st with progress := p, currentWordIndex := currentWord, totalWords := totalWords },
    [.progressed p currentWord totalWords])

/-- setVoice from TextToSpeech.cpp: write the requested id into the stored
settings, then delegate to the platform backend and return its verdict. -/
def setVoice (backendSetVoice : String → Bool) (voiceId : String)
    (st : ImplState) : Bool × ImplState :=
  let st := { st with settings := { st.settings with voiceId := voiceId } }
  (backendSetVoice voiceId, st)

/-- getSettings from TextToSpeech.cpp. -/
def getSettings (st : ImplState) : SpeechSettings :=
  st.settings

end TextToSpeech

end Opra

/-! ### Helper lemmas: word splitting and joining -/

namespace Opra

namespace PDFTextExtractor

theorem data_mk (l : List Char) : (String.mk l).data = l := rfl

theorem data_append_chars (a b : String) : (a ++ b).data = a.data ++ b.data := rfl

theorem splitWordsAux_word (w : List Char) :
    ∀ (r acc : List Char), (∀ c ∈ w, isCppWhitespace c = false) →
      splitWordsAux (w ++ r) acc = splitWordsAux r (w.reverse ++ acc) := by
  induction w with
  | nil => intro r acc _; simp
  | cons c cs ih =>
    intro r acc hw
    have hc : isCppWhitespace c = false := hw c (List.mem_cons_self c cs)
    simp only [List.cons_append, splitWordsAux, hc, Bool.false_eq_true, if_false,
      List.append_eq]
    rw [ih r (c :: acc) (fun x hx => hw x (List.mem_cons_of_mem c hx))]
    simp

theorem splitWordsAux_sound :
    ∀ (l acc : List Char), (∀ c ∈ acc, isCppWhitespace c = false) →
      ∀ w ∈ splitWordsAux l acc, w ≠ [] ∧ ∀ c ∈ w, isCppWhitespace c = false := by
  intro l
  induction l with
  | nil =>
    intro acc hacc w hw
    by_cases h : acc = []
    · simp [splitWordsAux, h] at hw
    · simp only [splitWordsAux, h, if_false, List.mem_singleton] at hw
      subst hw
      refine ⟨by simpa using h, fun c hc => hacc c (List.mem_reverse.mp hc)⟩
  | cons c cs ih =>
    intro acc hacc w hw
    simp only [splitWordsAux] at hw
    by_cases hc : isCppWhitespace c = true
    · rw [if_pos hc] at hw
      by_cases ha : acc = []
      · rw [if_pos ha] at hw
        exact ih [] (by simp) w hw
      · rw [if_neg ha] at hw
        rcases List.mem_cons.mp hw with rfl | hw'
        · refine ⟨by simpa using ha, fun x hx => hacc x (List.mem_reverse.mp hx)⟩
        · exact ih [] (by simp) w hw'
    · rw [if_neg hc] at hw
      refine ih (c :: acc) ?_ w hw
      intro x hx
      rcases List.mem_cons.mp hx with rfl | hx'
      · simpa using hc
      · exact hacc x hx'

theorem splitWordsL_sound (l : List Char) :
    ∀ w ∈ splitWordsL l, w ≠ [] ∧ ∀ c ∈ w, isCppWhitespace c = false :=
  splitWordsAux_sound l [] (by simp)

theorem joinWordsL_cons_cons (w w' : List Char) (ws : List (List Char)) :
    joinWordsL (w :: w' :: ws) = w ++ ' ' :: joinWordsL (w' :: ws) := rfl

theorem splitWordsL_joinWordsL :
    ∀ ws : List (List Char),
      (∀ w ∈ ws, w ≠ [] ∧ ∀ c ∈ w, isCppWhitespace c = false) →
      splitWordsL (joinWordsL ws) = ws := by
  intro ws
  induction ws with
  | nil => intro _; rfl
  | cons w ws ih =>
    intro h
    obtain ⟨hw, hwc⟩ := h w (List.mem_cons_self w ws)
    cases ws with
    | nil =>
      show splitWordsAux (joinWordsL [w]) [] = [w]
      have h1 : joinWordsL [w] = w ++ [] := by simp [joinWordsL]
      rw [h1, splitWordsAux_word w [] [] hwc]
      simp [splitWordsAux, hw]
    | cons w' ws' =>
      rw [splitWordsL, joinWordsL_cons_cons, splitWordsAux_word w _ [] hwc]
      have hsp : isCppWhitespace ' ' = true := rfl
      simp only [splitWordsAux, hsp, if_true, List.append_nil,
        List.reverse_eq_nil_iff, hw, if_false, List.reverse_reverse]
      exact congrArg (w :: ·) (ih (fun x hx => h x (List.mem_cons_of_mem w hx)))

theorem joinWordsL_append :
    ∀ (a b : List (List Char)), a ≠ [] → b ≠ [] →
      joinWordsL (a ++ b) = joinWordsL a ++ ' ' :: joinWordsL b := by
  intro a
  induction a with
  | nil => intro b ha _; exact absurd rfl ha
  | cons w a ih =>
    intro b _ hb
    cases a with
    | nil =>
      cases b with
      | nil => exact absurd rfl hb
      | cons b' bs => rfl
    | cons w' a' =>
      calc joinWordsL ((w :: w' :: a') ++ b)
          = w ++ ' ' :: joinWordsL ((w' :: a') ++ b) := rfl
        _ = w ++ ' ' :: (joinWordsL (w' :: a') ++ ' ' :: joinWordsL b) := by
            rw [ih b (by simp) hb]
        _ = (w ++ ' ' :: joinWordsL (w' :: a')) ++ ' ' :: joinWordsL b := by simp
        _ = joinWordsL (w :: w' :: a') ++ ' ' :: joinWordsL b := by
            rw [joinWordsL_cons_cons]

theorem joinWordsL_ne_nil (g : List (List Char)) (hg : g ≠ [])
    (hw : ∀ w ∈ g, w ≠ []) : joinWordsL g ≠ [] := by
  cases g with
  | nil => exact absurd rfl hg
  | cons w ws =>
    cases ws with
    | nil => simpa [joinWordsL] using hw w (by simp)
    | cons w' ws' => simp [joinWordsL_cons_cons]

theorem joinWordsL_flatten :
    ∀ gss : List (List (List Char)), (∀ g ∈ gss, g ≠ []) →
      joinWordsL (gss.map joinWordsL) = joinWordsL gss.flatten := by
  intro gss
  induction gss with
  | nil => intro _; rfl
  | cons g gss ih =>
    intro h
    cases gss with
    | nil => simp [joinWordsL]
    | cons g' gss' =>
      have hg : g ≠ [] := h g (by simp)
      have hg' : (g' :: gss').flatten ≠ [] := by
        have hne : g' ≠ [] := h g' (by simp)
        simp only [List.flatten_cons]
        intro hcontra
        exact hne (List.append_eq_nil.mp hcontra).1
      calc joinWordsL ((g :: g' :: gss').map joinWordsL)
          = joinWordsL g ++ ' ' :: joinWordsL ((g' :: gss').map joinWordsL) := rfl
        _ = joinWordsL g ++ ' ' :: joinWordsL ((g' :: gss').flatten) := by
            rw [ih (fun x hx => h x (List.mem_cons_of_mem g hx))]
        _ = joinWordsL (g ++ (g' :: gss').flatten) :=
            (joinWordsL_append _ _ hg hg').symm
        _ = joinWordsL ((g :: g' :: gss').flatten) := by
            simp [List.flatten_cons]

theorem chunkGo_spec (S : Int) (hS : 0 < S) :
    ∀ (ws cur : List (List Char)) (cnt : Int),
      cnt = (cur.length : Int) → cnt < S →
      ∃ gss : List (List (List Char)),
        chunkGo S ws cur cnt = gss.map (fun g => (joinWordsL g, (g.length : Int))) ∧
        gss.flatten = cur ++ ws ∧
        (∀ g ∈ gss, g ≠ []) ∧
        (∀ g ∈ gss.dropLast, (g.length : Int) = S) ∧
        (∀ g ∈ gss, (g.length : Int) ≤ S) := by
  intro ws
  induction ws with
  | nil =>
    intro cur cnt hcnt hlt
    by_cases hc : cur = []
    · exact ⟨[], by simp [chunkGo, hc], by simp [hc], by simp, by simp, by simp⟩
    · refine ⟨[cur], ?_, by simp, by simp [hc], by simp, ?_⟩
      · simp [chunkGo, hc, hcnt]
      · intro g hg
        rw [List.mem_singleton] at hg
        subst hg
        omega
  | cons w ws ih =>
    intro cur cnt hcnt hlt
    by_cases hclose : cnt + 1 ≥ S
    · obtain ⟨gss, h1, h2, h3, h4, h5⟩ := ih [] 0 (by simp) hS
      have hlen : ((cur ++ [w]).length : Int) = cnt + 1 := by
        simp only [List.length_append, List.length_singleton]
        omega
      have hfull : (((cur ++ [w]).length : Int)) = S := by omega
      refine ⟨(cur ++ [w]) :: gss, ?_, ?_, ?_, ?_, ?_⟩
      · simp only [chunkGo]
        rw [if_pos hclose, h1, List.map_cons, hlen]
      · simp [List.flatten_cons, h2]
      · intro g hg
        rcases List.mem_cons.mp hg with rfl | hg'
        · simp
        · exact h3 g hg'
      · intro g hg
        cases gss with
        | nil => simp at hg
        | cons g0 gss0 =>
          rw [List.dropLast_cons_of_ne_nil (by simp)] at hg
          rcases List.mem_cons.mp hg with rfl | hg'
          · exact hfull
          · exact h4 g hg'
      · intro g hg
        rcases List.mem_cons.mp hg with rfl | hg'
        · omega
        · exact h5 g hg'
    · obtain ⟨gss, h1, h2, h3, h4, h5⟩ := ih (cur ++ [w]) (cnt + 1)
        (by simp only [List.length_append, List.length_singleton]; omega)
        (by omega)
      refine ⟨gss, ?_, ?_, h3, h4, h5⟩
      · simp only [chunkGo]
        rw [if_neg hclose]
        exact h1
      · rw [h2]
        simp

theorem chunkText_as_groups (text : String) (S : Int) (hS : 0 < S) :
    ∃ gss : List (List (List Char)),
      chunkText text S =
        gss.map (fun g => ⟨String.mk (joinWordsL g), (g.length : Int)⟩) ∧
      gss.flatten = splitWordsL text.toList ∧
      (∀ g ∈ gss, g ≠ []) ∧
      (∀ g ∈ gss.dropLast, (g.length : Int) = S) ∧
      (∀ g ∈ gss, (g.length : Int) ≤ S) := by
  obtain ⟨gss, h1, h2, h3, h4, h5⟩ :=
    chunkGo_spec S hS (splitWordsL text.toList) [] 0 (by simp) hS
  refine ⟨gss, ?_, by simpa using h2, h3, h4, h5⟩
  rw [chunkText, h1, List.map_map]
  rfl

theorem joinTextsWithSpaces_eq :
    ∀ ts : List String,
      joinTextsWithSpaces ts = String.mk (joinWordsL (ts.map String.toList)) := by
  intro ts
  induction ts with
  | nil => rfl
  | cons t ts ih =>
    cases ts with
    | nil => rfl
    | cons t' ts' =>
      show t ++ " " ++ joinTextsWithSpaces (t' :: ts') = _
      rw [ih]
      apply String.ext
      have hsp : (" " : String).data = [' '] := rfl
      simp [data_append_chars, data_mk, hsp, List.map_cons,
        joinWordsL_cons_cons, String.toList]

theorem chunkText_group_words (text : String)
    (gss : List (List (List Char)))
    (h2 : gss.flatten = splitWordsL text.toList) :
    ∀ g ∈ gss, ∀ x ∈ g, x ≠ [] ∧ ∀ ch ∈ x, isCppWhitespace ch = false := by
  intro g hg x hx
  exact splitWordsL_sound text.toList x (h2 ▸ List.mem_flatten.mpr ⟨g, hg, hx⟩)

/-- C6: for every text and positive targetSize, every chunk except possibly
the last has wordCount equal to targetSize, the last (indeed every) chunk
has wordCount between 1 and targetSize, no chunk has empty text, input that
tokenizes to no words yields an empty sequence, and nonempty input with at
most targetSize words yields exactly one chunk. -/
theorem chunkText_invariants (text : String) (targetSize : Int)
    (hS : 0 < targetSize) :
    (∀ c ∈ (chunkText text targetSize).dropLast, c.wordCount = targetSize) ∧
    (∀ c ∈ chunkText text targetSize, 1 ≤ c.wordCount ∧ c.wordCount ≤ targetSize) ∧
    (∀ c ∈ chunkText text targetSize, c.text ≠ "") ∧
    (splitIntoWords text = [] → chunkText text targetSize = []) ∧
    (splitIntoWords text ≠ [] → ((splitIntoWords text).length : Int) ≤ targetSize →
      (chunkText text targetSize).length = 1) := by
  obtain ⟨gss, h1, h2, h3, h4, h5⟩ := chunkText_as_groups text targetSize hS
  have hword := chunkText_group_words text gss h2
  have hsplit : splitIntoWords text = (splitWordsL text.toList).map String.mk := rfl
  refine ⟨?_, ?_, ?_, ?_, ?_⟩
  · intro c hc
    rw [h1, ← List.map_dropLast] at hc
    obtain ⟨g, hg, rfl⟩ := List.mem_map.mp hc
    exact h4 g hg
  · intro c hc
    rw [h1] at hc
    obtain ⟨g, hg, rfl⟩ := List.mem_map.mp hc
    have hpos : 0 < g.length := List.length_pos.mpr (h3 g hg)
    exact ⟨by show 1 ≤ (g.length : Int); omega, h5 g hg⟩
  · intro c hc
    rw [h1] at hc
    obtain ⟨g, hg, rfl⟩ := List.mem_map.mp hc
    show String.mk (joinWordsL g) ≠ ""
    intro hcontra
    have hdata : joinWordsL g = [] := by
      simpa using congrArg String.data hcontra
    exact joinWordsL_ne_nil g (h3 g hg) (fun x hx => (hword g hg x hx).1) hdata
  · intro hempty
    rw [hsplit] at hempty
    have hw0 : splitWordsL text.toList = [] := List.map_eq_nil_iff.mp hempty
    have hgss : gss = [] := by
      cases gss with
      | nil => rfl
      | cons g gss' =>
        rw [List.flatten_cons, hw0] at h2
        exact absurd (List.append_eq_nil.mp h2).1 (h3 g (by simp))
    rw [h1, hgss]
    rfl
  · intro hne hlen
    have hwne : splitWordsL text.toList ≠ [] := by
      intro h0
      apply hne
      rw [hsplit, h0]
      rfl
    cases gss with
    | nil => exact absurd h2.symm (by simpa using hwne)
    | cons g1 gss1 =>
      cases gss1 with
      | nil => simp [h1]
      | cons g2 gss2 =>
        exfalso
        have hg1 : (g1.length : Int) = targetSize :=
          h4 g1 (by rw [List.dropLast_cons_of_ne_nil (by simp)]; simp)
        have hg2len : 0 < g2.length := List.length_pos.mpr (h3 g2 (by simp))
        have e1 : (splitWordsL text.toList).length =
            g1.length + ((g2 :: gss2).flatten).length := by
          rw [← h2, List.flatten_cons, List.length_append]
        have e2 : ((g2 :: gss2).flatten).length =
            g2.length + gss2.flatten.length := by
          rw [List.flatten_cons, List.length_append]
        have e3 : (splitIntoWords text).length = (splitWordsL text.toList).length := by
          rw [hsplit, List.length_map]
        omega

/-- C6 witness: the invariants instantiated at the two-word input "a b"
with targetSize 3. -/
theorem chunkText_invariants_witness :
    (0 : Int) < 3 ∧
    ((∀ c ∈ (chunkText "a b" 3).dropLast, c.wordCount = 3) ∧
     (∀ c ∈ chunkText "a b" 3, 1 ≤ c.wordCount ∧ c.wordCount ≤ 3) ∧
     (∀ c ∈ chunkText "a b" 3, c.text ≠ "") ∧
     (splitIntoWords "a b" = [] → chunkText "a b" 3 = []) ∧
     (splitIntoWords "a b" ≠ [] → ((splitIntoWords "a b").length : Int) ≤ 3 →
       (chunkText "a b" 3).length = 1)) :=
  ⟨by decide, chunkText_invariants "a b" 3 (by decide)⟩

/-- C7 counterexample: chunking does not reconstruct a text containing a
double space; the claim as stated fails at T = "a  b" (the chunker
tokenizes and rejoins with single spaces). -/
theorem chunkText_not_exact_on_raw_whitespace :
    joinChunkTexts (chunkText "a  b" 10000) ≠ "a  b" := by decide

/-- C7 amended: for every text T and target size S greater than 0, joining
the chunk texts with single spaces reconstructs the whitespace-normalized
form of T, namely joinWords (splitIntoWords T) - hence T itself exactly
when T is already single-space separated with no leading or trailing
whitespace - and no word is split: the concatenation of the chunks' word
sequences is exactly the word sequence of T. -/
theorem chunkText_reconstruction (text : String) (targetSize : Int)
    (hS : 0 < targetSize) :
    joinChunkTexts (chunkText text targetSize) = joinWords (splitIntoWords text) ∧
    ((chunkText text targetSize).map (fun c => splitIntoWords c.text)).flatten =
      splitIntoWords text := by
  obtain ⟨gss, h1, h2, h3, h4, h5⟩ := chunkText_as_groups text targetSize hS
  have hword := chunkText_group_words text gss h2
  constructor
  · rw [joinChunkTexts, h1, List.map_map, joinTextsWithSpaces_eq, List.map_map]
    have hmap : gss.map (String.toList ∘ ((fun c => c.text) ∘
        fun g => (⟨String.mk (joinWordsL g), (g.length : Int)⟩ : TextChunk))) =
        gss.map joinWordsL := rfl
    rw [hmap, joinWordsL_flatten gss h3, h2, joinWords]
    have hfinal : (splitIntoWords text).map String.toList = splitWordsL text.toList := by
      show ((splitWordsL text.toList).map String.mk).map String.toList =
        splitWordsL text.toList
      rw [List.map_map]
      have hid : String.toList ∘ String.mk = id := rfl
      rw [hid, List.map_id]
    rw [hfinal]
  · rw [h1, List.map_map]
    have hmap2 : gss.map ((fun c => splitIntoWords c.text) ∘
        fun g => (⟨String.mk (joinWordsL g), (g.length : Int)⟩ : TextChunk)) =
        gss.map (fun g => g.map String.mk) := by
      apply List.map_congr_left
      intro g hg
      show splitIntoWords (String.mk (joinWordsL g)) = g.map String.mk
      show (splitWordsL (String.mk (joinWordsL g)).toList).map String.mk = g.map String.mk
      have ht : (String.mk (joinWordsL g)).toList = joinWordsL g := rfl
      rw [ht, splitWordsL_joinWordsL g (hword g hg)]
    rw [hmap2, ← List.map_flatten, h2]
    rfl

/-- C7 witness: the amended reconstruction instantiated at "a b c" with
target size 2. -/
theorem chunkText_reconstruction_witness :
    (0 : Int) < 2 ∧
    (joinChunkTexts (chunkText "a b c" 2) = joinWords (splitIntoWords "a b c") ∧
     ((chunkText "a b c" 2).map (fun c => splitIntoWords c.text)).flatten =
       splitIntoWords "a b c") :=
  ⟨by decide, chunkText_reconstruction "a b c" 2 (by decide)⟩

theorem cleanTextForTTS_none (text : String) : cleanTextForTTS text = none := rfl

/-- C2: the claim that the LaTeX substitutions are literal string
replacements applied in the order the source lists them fails in the code:
the pairs sit in a std::map, so the loop visits them in lexicographic key
order, each key is interpreted as an ECMAScript regex (so escapes like the
one opening backslash-alpha match without their backslash), and the
thirteenth visited key - the fraction one, ending in a lone opening brace -
is an invalid pattern whose construction throws, so the substitution pass of
cleanTextForTTS throws std::regex_error for every input and never returns. -/
theorem cleanTextForTTS_substitutions_abort (text : String) :
    cleanTextForTTS text = none := rfl

/-- C3: normalizing the string backslash-alpha + backslash-beta =
backslash-pi does not return the claimed "alpha + beta = pi"; the
substitution loop throws std::regex_error (modelled as none) before
producing any result. -/
theorem cleanTextForTTS_alpha_beta_pi :
    cleanTextForTTS "\\alpha + \\beta = \\pi" = none := rfl

/-- C5: the extraction success path never completes: on a one-page document
whose backend text is the nonempty "hello" (the same happens for a
10000-word or 10001-word text), extractTextFromPages reaches the
normalization step and the substitution loop throws, so no ExtractionResult
at all is produced, let alone one with the claimed isChunked/chunks
values. -/
theorem extractTextFromPages_success_path_throws :
    extractTextFromPages ⟨true, 1, fun _ _ => "hello"⟩ 1 1 = none := rfl

theorem extractTextFromPages_failure_fields (b : PdfBackend) (s e : Int)
    (r : ExtractionResult) (hr : extractTextFromPages b s e = some r)
    (_hs : r.success = false) :
    r.errorMessage ≠ "" ∧ r.fullText = "" ∧ r.chunks = [] ∧
    r.isChunked = false ∧
    (r.pageRange = ExtractionResult.defaultValue.pageRange ∨
      (b.extractRange (max 1 s) (min b.pageCount e) = "" ∧
       r.pageRange = ⟨max 1 s, min b.pageCount e, b.pageCount⟩)) := by
  simp only [extractTextFromPages] at hr
  split at hr
  · injection hr with hr
    subst hr
    exact ⟨by decide, rfl, rfl, rfl, Or.inl rfl⟩
  · split at hr
    · injection hr with hr
      subst hr
      exact ⟨by decide, rfl, rfl, rfl, Or.inl rfl⟩
    · split at hr
      · rename_i hempty
        injection hr with hr
        subst hr
        exact ⟨(by decide :
            ("No text could be extracted from the specified pages" : String) ≠ ""),
          rfl, rfl, rfl, Or.inr ⟨hempty, rfl⟩⟩
      · rw [cleanTextForTTS_none] at hr
        exact absurd hr (by simp)

/-- C1 counterexample: a failing extraction (backend returns no text for a
5-page document) leaves success=false but carries the clamped page range
{1,5,5} in pageRange instead of the default/empty value, so not every
non-success field is default. -/
theorem extraction_failure_carries_pageRange :
    ((extractTextFromPages ⟨true, 5, fun _ _ => ""⟩ 1 5).getD
        ExtractionResult.defaultValue).success = false ∧
    ((extractTextFromPages ⟨true, 5, fun _ _ => ""⟩ 1 5).getD
        ExtractionResult.defaultValue).errorMessage ≠ "" ∧
    ((extractTextFromPages ⟨true, 5, fun _ _ => ""⟩ 1 5).getD
        ExtractionResult.defaultValue).pageRange ≠
      ExtractionResult.defaultValue.pageRange := by
  decide

/-- C1 amended: every failing extraction request has success=false, a
non-empty errorMessage, and default/empty fullText, chunks and isChunked;
pageRange is default for the failures detected before extraction (unknown
page count, clamped start exceeding end), but when the backend returns no
text the result carries the clamped page range and total page count. -/
theorem extraction_failure_fields (b : PdfBackend) (s e : Int)
    (r : ExtractionResult) :
    (extractTextFromPages b s e = some r → r.success = false →
      r.errorMessage ≠ "" ∧ r.fullText = "" ∧ r.chunks = [] ∧
      r.isChunked = false ∧
      (r.pageRange = ExtractionResult.defaultValue.pageRange ∨
        (b.extractRange (max 1 s) (min b.pageCount e) = "" ∧
         r.pageRange = ⟨max 1 s, min b.pageCount e, b.pageCount⟩))) ∧
    (extractText b = some r → r.success = false →
      r.errorMessage ≠ "" ∧ r.fullText = "" ∧ r.chunks = [] ∧
      r.isChunked = false ∧
      (r.pageRange = ExtractionResult.defaultValue.pageRange ∨
        (b.extractRange 1 b.pageCount = "" ∧
         r.pageRange = ⟨1, b.pageCount, b.pageCount⟩))) := by
  constructor
  · intro hr hs
    exact extractTextFromPages_failure_fields b s e r hr hs
  · intro hr hs
    simp only [extractText] at hr
    split at hr
    · injection hr with hr
      subst hr
      exact ⟨by decide, rfl, rfl, rfl, Or.inl rfl⟩
    · split at hr
      · injection hr with hr
        subst hr
        exact ⟨by decide, rfl, rfl, rfl, Or.inl rfl⟩
      · rename_i hpc
        obtain ⟨h1, h2, h3, h4, h5⟩ :=
          extractTextFromPages_failure_fields b 1 b.pageCount r hr hs
        refine ⟨h1, h2, h3, h4, ?_⟩
        have hmax : max 1 (1 : Int) = 1 := by decide
        have hmin : min b.pageCount b.pageCount = b.pageCount := min_self _
        rcases h5 with h5 | ⟨h5a, h5b⟩
        · exact Or.inl h5
        · rw [hmax, hmin] at h5a h5b
          exact Or.inr ⟨h5a, h5b⟩

/-- C1 witness: the amended statement instantiated at a backend with
unknown page count (both entry points fail with all fields default). -/
theorem extraction_failure_fields_witness :
    (extractTextFromPages ⟨true, 0, fun _ _ => ""⟩ 1 1 =
      some ⟨false, "Could not determine page count", "", [], ⟨0, 0, 0⟩, false⟩) ∧
    ((false : Bool) = false) ∧
    ((⟨false, "Could not determine page count", "", [], ⟨0, 0, 0⟩, false⟩ :
        ExtractionResult).errorMessage ≠ "" ∧
     (⟨false, "Could not determine page count", "", [], ⟨0, 0, 0⟩, false⟩ :
        ExtractionResult).fullText = "" ∧
     (⟨false, "Could not determine page count", "", [], ⟨0, 0, 0⟩, false⟩ :
        ExtractionResult).chunks = [] ∧
     (⟨false, "Could not determine page count", "", [], ⟨0, 0, 0⟩, false⟩ :
        ExtractionResult).isChunked = false ∧
     ((⟨false, "Could not determine page count", "", [], ⟨0, 0, 0⟩, false⟩ :
        ExtractionResult).pageRange = ExtractionResult.defaultValue.pageRange ∨
      ((⟨true, 0, fun _ _ => ""⟩ : PdfBackend).extractRange (max 1 1) (min 0 1) = "" ∧
       (⟨false, "Could not determine page count", "", [], ⟨0, 0, 0⟩, false⟩ :
        ExtractionResult).pageRange = ⟨max 1 1, min 0 1, 0⟩))) :=
  ⟨by decide, rfl,
    (extraction_failure_fields ⟨true, 0, fun _ _ => ""⟩ 1 1
      ⟨false, "Could not determine page count", "", [], ⟨0, 0, 0⟩, false⟩).1
      (by decide) rfl⟩

end PDFTextExtractor

end Opra

/-! ### Playback state machine theorems -/

namespace Opra

namespace TextToSpeech

/-- C4 counterexample: stopping from a state with progress 1/2, word index 3
and total 10 leaves those three fields untouched (only the chunked-session
fields and the state are reset), so the whole session state is not reset to
empty/zero on the transition to Stopped. -/
theorem stop_retains_progress_fields :
    (stop ⟨.Speaking, .defaultValue, ["hello"], 0, true, 1/2, 3, 10⟩).progress ≠ 0 ∧
    (stop ⟨.Speaking, .defaultValue, ["hello"], 0, true, 1/2, 3, 10⟩).currentWordIndex ≠ 0 ∧
    (stop ⟨.Speaking, .defaultValue, ["hello"], 0, true, 1/2, 3, 10⟩).totalWords ≠ 0 ∧
    (stop ⟨.Speaking, .defaultValue, ["hello"], 0, true, 1/2, 3, 10⟩).state = .Stopped := by
  have h : stop ⟨.Speaking, .defaultValue, ["hello"], 0, true, 1/2, 3, 10⟩ =
      ⟨.Stopped, .defaultValue, [], 0, false, 1/2, 3, 10⟩ := by
    rw [stop, if_pos (by decide)]
  rw [h]
  exact ⟨by norm_num, by decide, by decide, rfl⟩

/-- C4 amended: on every transition to Stopped - stop from a non-Stopped
state, or a finished event with no further chunk to advance to - the chunk
sequence, currentChunkIndex and isChunked flag are reset to empty/zero/false,
while progress, currentWordIndex and totalWords keep their previous values
(they are only overwritten by later onProgress events). -/
theorem stop_and_finish_reset_chunk_fields (st : ImplState)
    (accept : String → Bool) :
    (st.state ≠ .Stopped →
      (stop st).state = .Stopped ∧ (stop st).chunks = [] ∧
      (stop st).currentChunk = 0 ∧ (stop st).isChunked = false ∧
      (stop st).progress = st.progress ∧
      (stop st).currentWordIndex = st.currentWordIndex ∧
      (stop st).totalWords = st.totalWords) ∧
    (¬(st.isChunked ∧ toSizeT st.currentChunk < sizeTPred st.chunks.length) →
      (onSpeechFinished accept st).1.state = .Stopped ∧
      (onSpeechFinished accept st).1.chunks = [] ∧
      (onSpeechFinished accept st).1.currentChunk = 0 ∧
      (onSpeechFinished accept st).1.isChunked = false ∧
      (onSpeechFinished accept st).1.progress = st.progress ∧
      (onSpeechFinished accept st).1.currentWordIndex = st.currentWordIndex ∧
      (onSpeechFinished accept st).1.totalWords = st.totalWords ∧
      (onSpeechFinished accept st).2 = [.finished]) := by
  constructor
  · intro h
    rw [stop, if_pos h]
    exact ⟨rfl, rfl, rfl, rfl, rfl, rfl, rfl⟩
  · intro h
    rw [onSpeechFinished, if_neg h]
    exact ⟨rfl, rfl, rfl, rfl, rfl, rfl, rfl, rfl⟩

/-- C4 witness: the amended statement instantiated at a Speaking state with
a one-chunk session at its last index. -/
theorem stop_and_finish_reset_chunk_fields_witness :
    ((stop ⟨.Speaking, .defaultValue, ["x"], 0, true, 0, 0, 0⟩).state = .Stopped ∧
     (stop ⟨.Speaking, .defaultValue, ["x"], 0, true, 0, 0, 0⟩).chunks = [] ∧
     (stop ⟨.Speaking, .defaultValue, ["x"], 0, true, 0, 0, 0⟩).currentChunk = 0 ∧
     (stop ⟨.Speaking, .defaultValue, ["x"], 0, true, 0, 0, 0⟩).isChunked = false ∧
     (stop ⟨.Speaking, .defaultValue, ["x"], 0, true, 0, 0, 0⟩).progress =
       (⟨.Speaking, .defaultValue, ["x"], 0, true, 0, 0, 0⟩ : ImplState).progress ∧
     (stop ⟨.Speaking, .defaultValue, ["x"], 0, true, 0, 0, 0⟩).currentWordIndex =
       (⟨.Speaking, .defaultValue, ["x"], 0, true, 0, 0, 0⟩ : ImplState).currentWordIndex ∧
     (stop ⟨.Speaking, .defaultValue, ["x"], 0, true, 0, 0, 0⟩).totalWords =
       (⟨.Speaking, .defaultValue, ["x"], 0, true, 0, 0, 0⟩ : ImplState).totalWords) ∧
    ((onSpeechFinished (fun _ => true)
        ⟨.Speaking, .defaultValue, ["x"], 0, true, 0, 0, 0⟩).1.state = .Stopped ∧
     (onSpeechFinished (fun _ => true)
        ⟨.Speaking, .defaultValue, ["x"], 0, true, 0, 0, 0⟩).1.chunks = [] ∧
     (onSpeechFinished (fun _ => true)
        ⟨.Speaking, .defaultValue, ["x"], 0, true, 0, 0, 0⟩).1.currentChunk = 0 ∧
     (onSpeechFinished (fun _ => true)
        ⟨.Speaking, .defaultValue, ["x"], 0, true, 0, 0, 0⟩).1.isChunked = false ∧
     (onSpeechFinished (fun _ => true)
        ⟨.Speaking, .defaultValue, ["x"], 0, true, 0, 0, 0⟩).1.progress =
       (⟨.Speaking, .defaultValue, ["x"], 0, true, 0, 0, 0⟩ : ImplState).progress ∧
     (onSpeechFinished (fun _ => true)
        ⟨.Speaking, .defaultValue, ["x"], 0, true, 0, 0, 0⟩).1.currentWordIndex =
       (⟨.Speaking, .defaultValue, ["x"], 0, true, 0, 0, 0⟩ : ImplState).currentWordIndex ∧
     (onSpeechFinished (fun _ => true)
        ⟨.Speaking, .defaultValue, ["x"], 0, true, 0, 0, 0⟩).1.totalWords =
       (⟨.Speaking, .defaultValue, ["x"], 0, true, 0, 0, 0⟩ : ImplState).totalWords ∧
     (onSpeechFinished (fun _ => true)
        ⟨.Speaking, .defaultValue, ["x"], 0, true, 0, 0, 0⟩).2 = [.finished]) :=
  ⟨(stop_and_finish_reset_chunk_fields
      ⟨.Speaking, .defaultValue, ["x"], 0, true, 0, 0, 0⟩ (fun _ => true)).1
      (by decide),
   (stop_and_finish_reset_chunk_fields
      ⟨.Speaking, .defaultValue, ["x"], 0, true, 0, 0, 0⟩ (fun _ => true)).2
      (by decide)⟩

/-- C8: from the initial Stopped state, speakChunked with three chunks
starting at index 0 (each chunk nonempty, cleaning to nonempty text the
backend accepts) returns true; the first and second finished events advance
the chunk index to 1 and then 2 with no callback; the third finished event
fires exactly the finished callback and leaves the controller Stopped with
empty session state (chunks empty, index 0, isChunked false, progress and
word counters still zero). -/
theorem speakChunked_three_chunk_session (accept : String → Bool)
    (c0 c1 c2 : String)
    (h0a : c0 ≠ "") (h0b : cleanTextForTTS c0 ≠ "")
    (h0c : accept (cleanTextForTTS c0) = true)
    (_h1a : c1 ≠ "") (_h1b : cleanTextForTTS c1 ≠ "")
    (_h1c : accept (cleanTextForTTS c1) = true)
    (_h2a : c2 ≠ "") (_h2b : cleanTextForTTS c2 ≠ "")
    (_h2c : accept (cleanTextForTTS c2) = true) :
    let r1 := speakChunked accept [c0, c1, c2] 0 ImplState.initial
    let s2 := onSpeechFinished accept r1.2
    let s3 := onSpeechFinished accept s2.1
    let s4 := onSpeechFinished accept s3.1
    r1.1 = true ∧
    s2.2 = [] ∧ s2.1.currentChunk = 1 ∧
    s3.2 = [] ∧ s3.1.currentChunk = 2 ∧
    s4.2 = [.finished] ∧
    s4.1.state = .Stopped ∧ s4.1.chunks = [] ∧ s4.1.currentChunk = 0 ∧
    s4.1.isChunked = false ∧ s4.1.progress = 0 ∧
    s4.1.currentWordIndex = 0 ∧ s4.1.totalWords = 0 := by
  have t0 : toSizeT 0 = 0 := rfl
  have t1 : toSizeT 1 = 1 := rfl
  have t2 : toSizeT 2 = 2 := rfl
  have p3 : sizeTPred 3 = 2 := rfl
  have e1 : speakChunked accept [c0, c1, c2] 0 ImplState.initial =
      (true, ⟨.Stopped, .defaultValue, [c0, c1, c2], 0, true, 0, 0, 0⟩) := by
    refine Prod.ext ?_ ?_ <;>
      (simp only [speakChunked, speakCurrentChunk, speak, t0, ImplState.initial];
       simp [h0a, h0b, h0c, List.getD])
  have e2 : onSpeechFinished accept
      ⟨.Stopped, .defaultValue, [c0, c1, c2], 0, true, 0, 0, 0⟩ =
      (⟨.Stopped, .defaultValue, [c0, c1, c2], 1, true, 0, 0, 0⟩, []) := by
    refine Prod.ext ?_ ?_ <;>
      (simp only [onSpeechFinished, t0, p3, List.length_cons, List.length_nil];
       simp)
  have e3 : onSpeechFinished accept
      ⟨.Stopped, .defaultValue, [c0, c1, c2], 1, true, 0, 0, 0⟩ =
      (⟨.Stopped, .defaultValue, [c0, c1, c2], 2, true, 0, 0, 0⟩, []) := by
    refine Prod.ext ?_ ?_ <;>
      (simp only [onSpeechFinished, t1, p3, List.length_cons, List.length_nil];
       simp)
  have e4 : onSpeechFinished accept
      ⟨.Stopped, .defaultValue, [c0, c1, c2], 2, true, 0, 0, 0⟩ =
      (⟨.Stopped, .defaultValue, [], 0, false, 0, 0, 0⟩, [.finished]) := by
    refine Prod.ext ?_ ?_ <;>
      (simp only [onSpeechFinished, t2, p3, List.length_cons, List.length_nil];
       simp)
  dsimp only
  rw [e1]
  simp only [e2, e3, e4]
  simp

/-- C8 witness: the three-chunk trace instantiated at the chunks "a", "b",
"c" with a backend accepting everything. -/
theorem speakChunked_three_chunk_session_witness :
    let r1 := speakChunked (fun _ => true) ["a", "b", "c"] 0 ImplState.initial
    let s2 := onSpeechFinished (fun _ => true) r1.2
    let s3 := onSpeechFinished (fun _ => true) s2.1
    let s4 := onSpeechFinished (fun _ => true) s3.1
    r1.1 = true ∧
    s2.2 = [] ∧ s2.1.currentChunk = 1 ∧
    s3.2 = [] ∧ s3.1.currentChunk = 2 ∧
    s4.2 = [.finished] ∧
    s4.1.state = .Stopped ∧ s4.1.chunks = [] ∧ s4.1.currentChunk = 0 ∧
    s4.1.isChunked = false ∧ s4.1.progress = 0 ∧
    s4.1.currentWordIndex = 0 ∧ s4.1.totalWords = 0 :=
  speakChunked_three_chunk_session (fun _ => true) "a" "b" "c"
    (by decide) (by decide) rfl
    (by decide) (by decide) rfl
    (by decide) (by decide) rfl

/-- C9: when speakChunked passes its guard (nonempty chunks, start index in
bounds), it stores the chunk sequence, the start index and isChunked=true
into the session state before attempting the first chunk, so even when the
attempt fails - for instance because the chunk at the start index cleans to
the empty string, making speakChunked return false - the session state holds
the stored values rather than being left unchanged. -/
theorem speakChunked_stores_session_state (accept : String → Bool)
    (chunks : List String) (startChunk : Int) (st : ImplState)
    (hne : chunks ≠ []) (hidx : toSizeT startChunk < chunks.length) :
    ((speakChunked accept chunks startChunk st).2.chunks = chunks ∧
     (speakChunked accept chunks startChunk st).2.currentChunk = startChunk ∧
     (speakChunked accept chunks startChunk st).2.isChunked = true) ∧
    (cleanTextForTTS (chunks.getD (toSizeT startChunk) "") = "" →
      (speakChunked accept chunks startChunk st).1 = false) := by
  have hguard : ¬(chunks = [] ∨ chunks.length ≤ toSizeT startChunk) := by
    push_neg
    exact ⟨hne, by omega⟩
  constructor
  · rw [speakChunked, if_neg hguard]
    exact ⟨rfl, rfl, rfl⟩
  · intro hclean
    rw [speakChunked, if_neg hguard]
    show speakCurrentChunk accept _ = false
    rw [speakCurrentChunk]
    split
    · show speak accept (chunks.getD (toSizeT startChunk) "") = false
      simp only [speak, hclean]
      simp
    · rfl

/-- C9 witness: a single chunk consisting of one space cleans to the empty
string; speakChunked stores the session state and returns false. -/
theorem speakChunked_stores_session_state_witness :
    ([" "] ≠ ([] : List String)) ∧ toSizeT 0 < [" "].length ∧
    (((speakChunked (fun _ => true) [" "] 0 ImplState.initial).2.chunks = [" "] ∧
      (speakChunked (fun _ => true) [" "] 0 ImplState.initial).2.currentChunk = 0 ∧
      (speakChunked (fun _ => true) [" "] 0 ImplState.initial).2.isChunked = true) ∧
     (cleanTextForTTS ([" "].getD (toSizeT 0) "") = "" →
       (speakChunked (fun _ => true) [" "] 0 ImplState.initial).1 = false)) :=
  ⟨by decide, by decide,
   speakChunked_stores_session_state (fun _ => true) [" "] 0 ImplState.initial
     (by decide) (by decide)⟩

/-- C10: setVoice writes the requested voice id into the stored settings
before delegating to the platform backend, so whatever boolean the backend
returns (the first component equals the backend verdict, including false for
a rejected id), a subsequent getSettings reports the requested id. -/
theorem setVoice_overwrites_settings (backendSetVoice : String → Bool)
    (voiceId : String) (st : ImplState) :
    (getSettings (setVoice backendSetVoice voiceId st).2).voiceId = voiceId ∧
    (setVoice backendSetVoice voiceId st).1 = backendSetVoice voiceId :=
  ⟨rfl, rfl⟩

end TextToSpeech

end Opra
